import Mathlib

/-!
Shallow embedding of the CuriousMind Scoring & Ranking Engine
(`backend/quizzes/models.py`, `backend/quizzes/views.py`,
`backend/quizzes/scheduler.py`, `backend/quizzes/utils.py`).

The Django ORM store is modelled as explicit lists of rows; machine
integers are `Nat` (all quantities in play are nonnegative: ids, point
values derived from difficulty, scores accumulated from `0` by adding
point values); the Python `float` field `average_score_percentage` is
modelled exactly with `ℚ` and `round(x, 2)` with `round (x * 100) / 100`.
SQL `ORDER BY` leaves the relative order of tied rows unspecified; we
determinize it as a stable sort on the stored row order (the enumeration
order a full table scan yields), which is the only tie behaviour the code
itself pins down.
-/

namespace CuriousMind

/-- Embeds the `Quiz` model (`models.py`): identity, `is_active`,
`is_ai_generated`.  Fields irrelevant to the scoring engine (title,
description, timestamps) are omitted. -/
structure Quiz where
  id : Nat
  is_active : Bool
  is_ai_generated : Bool
deriving Repr, DecidableEq

/-- Embeds the `Question` model: a question belongs to one quiz (`quiz` is
the foreign key) and carries a point value. -/
structure Question where
  id : Nat
  quiz : Nat
  points : Nat
deriving Repr, DecidableEq

/-- Embeds the `Choice` model: a choice belongs to one question and has a
correctness flag. -/
structure Choice where
  id : Nat
  question : Nat
  is_correct : Bool
deriving Repr, DecidableEq

/-- Embeds the `QuizAttempt` model: keyed by the `(user, quiz)` pair
(`unique_together`), carrying the score, the snapshotted `total_points`
and the completion flag. -/
structure QuizAttempt where
  user : Nat
  quiz : Nat
  score : Nat
  total_points : Nat
  is_completed : Bool
deriving Repr, DecidableEq

/-- Embeds the `Answer` model: one row per processed submitted pair,
belonging to an attempt (identified by its `(user, quiz)` key) and a
question, recording the selected choice (if any) and `is_correct`. -/
structure Answer where
  attempt_user : Nat
  attempt_quiz : Nat
  question : Nat
  selected_choice : Option Nat
  text_answer : String
  is_correct : Bool
deriving Repr, DecidableEq

/-- Embeds the `UserProfile` model: per-user derived aggregates and the
dense global rank. -/
structure UserProfile where
  user : Nat
  total_score : Nat
  total_quizzes_completed : Nat
  average_score_percentage : ℚ
  rank : Nat
deriving Repr, DecidableEq

/-- The durable store: one list of rows per table, in stored row order. -/
structure Store where
  quizzes : List Quiz
  questions : List Question
  choices : List Choice
  attempts : List QuizAttempt
  answers : List Answer
  users : List Nat
  profiles : List UserProfile
deriving Repr, DecidableEq

/-- `Quiz.objects.get(id=quiz_id, is_active=True)` of `submit_quiz`. -/
def Store.findActiveQuiz (s : Store) (quizId : Nat) : Option Quiz :=
  s.quizzes.find? (fun qz => qz.id == quizId && qz.is_active)

/-- `quiz.questions.all()`: the questions whose foreign key is this quiz. -/
def Store.quizQuestions (s : Store) (quizId : Nat) : List Question :=
  s.questions.filter (fun q => q.quiz == quizId)

/-- `sum(q.points for q in qs)`. -/
def sumPoints (qs : List Question) : Nat :=
  (qs.map (fun q => q.points)).sum

/-- `Question.objects.get(id=question_id, quiz=quiz)` of the answer loop. -/
def Store.findQuestion (s : Store) (quizId questionId : Nat) : Option Question :=
  s.questions.find? (fun q => q.id == questionId && q.quiz == quizId)

/-- `Choice.objects.get(id=selected_choice_id, question=question)`. -/
def Store.findChoice (s : Store) (questionId choiceId : Nat) : Option Choice :=
  s.choices.find? (fun c => c.id == choiceId && c.question == questionId)

/-- `QuizAttempt.objects.get_or_create(user=..., quiz=...)` lookup part. -/
def Store.findAttempt (s : Store) (userId quizId : Nat) : Option QuizAttempt :=
  s.attempts.find? (fun a => a.user == userId && a.quiz == quizId)

/-- `UserProfile.objects.get_or_create(user=user)` lookup part. -/
def Store.findProfile (s : Store) (userId : Nat) : Option UserProfile :=
  s.profiles.find? (fun p => p.user == userId)

/-- The inner join `quiz__is_ai_generated=False` used by `update_stats`:
an attempt qualifies when its quiz row exists and is not AI-generated. -/
def Store.isNonAIQuiz (s : Store) (quizId : Nat) : Bool :=
  match s.quizzes.find? (fun qz => qz.id == quizId) with
  | some qz => !qz.is_ai_generated
  | none => false

/-- The attempt set of `UserProfile.update_stats`:
`QuizAttempt.objects.filter(user=self.user, is_completed=True,
quiz__is_ai_generated=False)`. -/
def Store.completedNonAI (s : Store) (userId : Nat) : List QuizAttempt :=
  s.attempts.filter (fun a => a.user == userId && a.is_completed && s.isNonAIQuiz a.quiz)

/-- Python `round(x, 2)` on the exact rational value. -/
def round2 (x : ℚ) : ℚ :=
  ((round (x * 100) : ℤ) : ℚ) / 100

/-- Embeds `UserProfile.update_stats` (`models.py` lines 99-120): recompute
`total_quizzes_completed`, `total_score` and `average_score_percentage`
from the completed non-AI attempt set; the SQL aggregate is
`Avg(score) * 100.0 / Avg(total_points)` (with `NULL` collapsing to `0`,
matched here by `x / 0 = 0` in `ℚ`), rounded to 2 decimal places.  The
`rank` field is left as it was (the method does not touch it). -/
def update_stats (s : Store) (p : UserProfile) : UserProfile :=
  let ca := s.completedNonAI p.user
  let n := ca.length
  let total := (ca.map (fun a => a.score)).sum
  let avg : ℚ :=
    if 0 < n then
      let avgScore : ℚ := ((ca.map (fun a => a.score)).sum : ℚ) / n
      let avgTotal : ℚ := ((ca.map (fun a => a.total_points)).sum : ℚ) / n
      round2 (avgScore * 100 / avgTotal)
    else 0
  { p with
    total_quizzes_completed := n
    total_score := total
    average_score_percentage := avg }

/-- `total_quizzes_completed__gt=0`: the filter of `update_all_ranks`. -/
def qualifies (p : UserProfile) : Bool :=
  decide (0 < p.total_quizzes_completed)

/-- The `order_by('-total_score', '-average_score_percentage')` comparison:
`p` sorts at or before `q`.  No further key is used by the code. -/
def profileLe (p q : UserProfile) : Prop :=
  q.total_score < p.total_score ∨
    (q.total_score = p.total_score ∧
      q.average_score_percentage ≤ p.average_score_percentage)

/-- `p` sorts strictly before `q` under the two ordering keys. -/
def profLt (p q : UserProfile) : Prop :=
  q.total_score < p.total_score ∨
    (q.total_score = p.total_score ∧
      q.average_score_percentage < p.average_score_percentage)

instance : DecidableRel profileLe := fun p q => by
  unfold profileLe
  exact inferInstance

instance : DecidableRel profLt := fun p q => by
  unfold profLt
  exact inferInstance

instance : IsTotal UserProfile profileLe := by
  constructor
  intro p q
  unfold profileLe
  rcases Nat.lt_trichotomy p.total_score q.total_score with h | h | h
  · exact Or.inr (Or.inl h)
  · rcases le_total p.average_score_percentage q.average_score_percentage with h2 | h2
    · exact Or.inr (Or.inr ⟨h, h2⟩)
    · exact Or.inl (Or.inr ⟨h.symm, h2⟩)
  · exact Or.inl (Or.inl h)

instance : IsTrans UserProfile profileLe := by
  constructor
  intro p q r hpq hqr
  unfold profileLe at *
  rcases hpq with h1 | ⟨e1, a1⟩
  · rcases hqr with h2 | ⟨e2, _⟩
    · exact Or.inl (h2.trans h1)
    · exact Or.inl (e2 ▸ h1)
  · rcases hqr with h2 | ⟨e2, a2⟩
    · exact Or.inl (e1 ▸ h2)
    · exact Or.inr ⟨e2.trans e1, a2.trans a1⟩

/-- The sorted queryset of `update_all_ranks`: qualifying profiles in the
two-key descending order, ties kept in stored row order (stable). -/
def rankedOrder (ps : List UserProfile) : List UserProfile :=
  (ps.filter qualifies).insertionSort profileLe

/-- The rank the enumeration `for index, profile in enumerate(profiles, 1)`
assigns to the profile of user `u`: its 1-based position in the sorted
qualifying list, or `0` when the user does not occur there (the
`cls.objects.all().update(rank=0)` reset). -/
def rankIn : List UserProfile → Nat → Nat → Nat
  | [], _, _ => 0
  | p :: t, u, i => if p.user = u then i else rankIn t u (i + 1)

/-- Embeds `UserProfile.update_all_ranks` (`models.py` lines 122-136): reset
every rank to 0, then assign 1..N along the sorted qualifying profiles. -/
def update_all_ranks (ps : List UserProfile) : List UserProfile :=
  let sorted := rankedOrder ps
  ps.map (fun p => { p with rank := rankIn sorted p.user 1 })

/-- One submitted `(question_id, selected_choice_id, text_answer)` entry of
the `answers` payload.  `selected_choice_id = none` is an absent / falsy
value (the `if selected_choice_id:` guard fails). -/
structure SubmittedAnswer where
  question_id : Nat
  selected_choice_id : Option Nat
  text_answer : String
deriving Repr, DecidableEq

/-- The choice resolution step of the answer loop: only attempted when a
choice id was submitted, and only succeeding when the row belongs to this
question. -/
def resolveChoice (s : Store) (q : Question) (a : SubmittedAnswer) : Option Choice :=
  match a.selected_choice_id with
  | none => none
  | some cid => s.findChoice q.id cid

/-- The `Answer.objects.create(...)` row built by one loop iteration. -/
def mkAnswer (u quizId questionId : Nat) (selected : Option Nat)
    (text : String) (correct : Bool) : Answer :=
  { attempt_user := u, attempt_quiz := quizId, question := questionId,
    selected_choice := selected, text_answer := text, is_correct := correct }

/-- Embeds the answer-processing loop of `submit_quiz` (`views.py` lines
74-105): per submitted pair, resolve the question (skip silently when it
does not belong to the quiz), resolve the choice (treated as incorrect
with no choice recorded when it does not resolve), accumulate the score
and create one `Answer` row per processed pair, in submission order. -/
def processAnswers (s : Store) (qz : Quiz) (u : Nat) :
    List SubmittedAnswer → Nat × List Answer
  | [] => (0, [])
  | a :: rest =>
    match s.findQuestion qz.id a.question_id with
    | none => processAnswers s qz u rest
    | some q =>
      let resolved := resolveChoice s q a
      let isCorrect := match resolved with
        | some c => c.is_correct
        | none => false
      let contribution := if isCorrect then q.points else 0
      let r := processAnswers s qz u rest
      (contribution + r.1,
        mkAnswer u qz.id q.id (resolved.map (fun c => c.id)) a.text_answer isCorrect
          :: r.2)

inductive SubmitError where
  | QuizNotFound
  | SubmissionNotAllowed
  | AlreadyCompleted
deriving Repr, DecidableEq

deriving instance DecidableEq for Except

/-- The success payload of `submit_quiz`' JSON response.  `rank` is read
off the Python `profile` object, which was fetched before
`update_all_ranks` ran, so it is the rank as stored at fetch time. -/
structure SubmitResponse where
  score : Nat
  total_points : Nat
  percentage : ℚ
  rank : Nat
deriving Repr, DecidableEq

/-- `User.objects.get` / `create_user` of `submit_quiz`: ensure a user row
exists. -/
def ensureUser (s : Store) (u : Nat) : Store :=
  if u ∈ s.users then s else { s with users := s.users ++ [u] }

/-- Write the updated profile row for user `u` back to the store. -/
def saveProfile (s : Store) (u : Nat) (p : UserProfile) : Store :=
  { s with profiles := s.profiles.map (fun q => if q.user == u then p else q) }

/-- Embeds `submit_quiz` (`views.py` lines 37-128): validate the quiz
(active, then not AI-generated), ensure the user, get-or-create the
attempt (snapshotting `total_points` as the sum over all quiz questions),
reject when already completed, process the answers, persist the completed
attempt and its `Answer` rows, get-or-create the profile, run
`update_stats` for this user and `update_all_ranks` for everyone, and
answer with score / snapshot / percentage / the fetched profile's rank.
Returns the store after the call alongside the result. -/
def submit_quiz (s : Store) (user_id quiz_id : Nat)
    (answers_data : List SubmittedAnswer) : Store × Except SubmitError SubmitResponse :=
  match s.findActiveQuiz quiz_id with
  | none => (s, Except.error SubmitError.QuizNotFound)
  | some quiz =>
    if quiz.is_ai_generated then
      (s, Except.error SubmitError.SubmissionNotAllowed)
    else
      let s1 := ensureUser s user_id
      let got :=
        match s1.findAttempt user_id quiz_id with
        | some a => (s1, a)
        | none =>
          let a : QuizAttempt :=
            { user := user_id, quiz := quiz_id, score := 0,
              total_points := sumPoints (s1.quizQuestions quiz_id),
              is_completed := false }
          ({ s1 with attempts := s1.attempts ++ [a] }, a)
      let s2 := got.1
      let attempt := got.2
      if attempt.is_completed then
        (s2, Except.error SubmitError.AlreadyCompleted)
      else
        let pr := processAnswers s2 quiz user_id answers_data
        let score := pr.1
        let attempt' := { attempt with score := score, is_completed := true }
        let s3 : Store :=
          { s2 with
            attempts := s2.attempts.map
              (fun a => if a.user == user_id && a.quiz == quiz_id then attempt' else a),
            answers := s2.answers ++ pr.2 }
        let gotp :=
          match s3.findProfile user_id with
          | some p => (s3, p)
          | none =>
            let p : UserProfile :=
              { user := user_id, total_score := 0, total_quizzes_completed := 0,
                average_score_percentage := 0, rank := 0 }
            ({ s3 with profiles := s3.profiles ++ [p] }, p)
        let s4 := gotp.1
        let profile1 := update_stats s4 gotp.2
        let s5 := saveProfile s4 user_id profile1
        let s6 := { s5 with profiles := update_all_ranks s5.profiles }
        (s6, Except.ok
          { score := score,
            total_points := attempt.total_points,
            percentage :=
              if 0 < attempt.total_points then
                (score : ℚ) / (attempt.total_points : ℚ) * 100
              else 0,
            rank := profile1.rank })

/-- The relevant surface of APScheduler's `BackgroundScheduler` as
`scheduler.py` uses it: after `start()` it is running and holds the one
interval job added before the start. -/
structure SchedulerHandle where
  running : Bool
  jobs : List String
deriving Repr, DecidableEq

/-- The JSON shape `get_scheduler_status` answers with. -/
structure SchedulerStatus where
  status : String
  jobs : List String
deriving Repr, DecidableEq

/-- Embeds `start_scheduler` (`scheduler.py` lines 20-45) acting on the
module-global `scheduler` variable (`none` = never started or stopped):
when a scheduler already exists the call logs and returns without change;
otherwise it builds a `BackgroundScheduler`, adds the leaderboard interval
job and starts it. -/
def start_scheduler : Option SchedulerHandle → Option SchedulerHandle
  | some s => some s
  | none => some { running := true, jobs := ["leaderboard_update_job"] }

/-- Embeds `stop_scheduler` (`scheduler.py` lines 47-53): shut the
scheduler down (releasing its trigger) and clear the global back to
`none`; a no-op when already stopped. -/
def stop_scheduler : Option SchedulerHandle → Option SchedulerHandle :=
  fun _ => none

/-- Embeds `get_scheduler_status` (`scheduler.py` lines 55-72). -/
def get_scheduler_status : Option SchedulerHandle → SchedulerStatus
  | none => { status := "stopped", jobs := [] }
  | some s =>
    { status := if s.running then "running" else "stopped", jobs := s.jobs }

/-- The difficulty-to-points table of `utils.py`. -/
def difficulty_points : List (String × Nat) :=
  [("easy", 1), ("medium", 2), ("hard", 4)]

/-- Python `str.lower()`, modelled as per-character lowercasing. -/
def strLower (s : String) : String :=
  ⟨s.data.map Char.toLower⟩

/-- Embeds `get_points_for_difficulty` (`utils.py` lines 6-21):
`difficulty_points.get(difficulty.lower(), 2)`. -/
def get_points_for_difficulty (difficulty : String) : Nat :=
  (difficulty_points.lookup (strLower difficulty)).getD 2

/-- The rank the updated store assigns to user `u`: the rank field of the
(unique) profile row with that user, `0` when there is none. -/
def storeRank (ps : List UserProfile) (u : Nat) : Nat :=
  match ps.find? (fun p => p.user == u) with
  | some p => p.rank
  | none => 0

/-- The spec's §4.2 `average_score_percentage` formula, stated in the
spec's own words for the refinement comparison: the ratio of the mean
score to the mean total over the completed non-AI attempt set, times 100,
rounded to 2 decimal places; `0` when the set is empty. -/
def specAverageScorePercentage (s : Store) (u : Nat) : ℚ :=
  let ca := s.completedNonAI u
  if ca = [] then 0
  else
    let meanScore : ℚ := ((ca.map (fun a => a.score)).sum : ℚ) / ca.length
    let meanTotal : ℚ := ((ca.map (fun a => a.total_points)).sum : ℚ) / ca.length
    round2 (meanScore / meanTotal * 100)

/-- The mean of the per-attempt percentages — the alternative formula the
spec's §8 Scenario B rules out, stated for the comparison. -/
def specMeanOfRatios (s : Store) (u : Nat) : ℚ :=
  let ca := s.completedNonAI u
  (ca.map (fun a => (a.score : ℚ) / (a.total_points : ℚ) * 100)).sum / ca.length

/-- Store for the C1 failing input: one active non-AI quiz (id 1) with a
single 2-point question whose choice 1 is the correct one. -/
def C1store : Store :=
  { quizzes := [⟨1, true, false⟩], questions := [⟨1, 1, 2⟩],
    choices := [⟨1, 1, true⟩], attempts := [], answers := [],
    users := [1], profiles := [⟨1, 0, 0, 0, 0⟩] }

/-- The C1 failing payload: the same correct pair submitted twice. -/
def C1dup : List SubmittedAnswer :=
  [⟨1, some 1, ""⟩, ⟨1, some 1, ""⟩]

/-- Store for the spec's §8 Scenario B: one user with completed non-AI
attempts scoring 5/10 and 3/5. -/
def C2store : Store :=
  { quizzes := [⟨1, true, false⟩, ⟨2, true, false⟩], questions := [],
    choices := [], attempts := [⟨1, 1, 5, 10, true⟩, ⟨1, 2, 3, 5, true⟩],
    answers := [], users := [1], profiles := [⟨1, 0, 0, 0, 0⟩] }

/-- The Scenario B user's profile row before the aggregation runs. -/
def C2profile : UserProfile := ⟨1, 0, 0, 0, 0⟩

/-- Profiles for the C3 witness: two qualifying users with stale ranks and
one non-qualifying user holding an orphaned rank. -/
def C3w : List UserProfile :=
  [⟨1, 5, 1, 50, 7⟩, ⟨2, 9, 2, 60, 0⟩, ⟨3, 0, 0, 0, 3⟩]

/-- Profiles for the C4 counterexample: two profiles tied on both ordering
keys, the higher user id stored first. -/
def C4ps : List UserProfile :=
  [⟨2, 10, 1, 50, 0⟩, ⟨1, 10, 1, 50, 0⟩]

/-- The same two tied profiles stored in the opposite order. -/
def C4psSwapped : List UserProfile :=
  [⟨1, 10, 1, 50, 0⟩, ⟨2, 10, 1, 50, 0⟩]

/-- Profiles for the C4 witness: two qualifying users with strictly
ordered total scores. -/
def C4w : List UserProfile :=
  [⟨1, 5, 1, 50, 0⟩, ⟨2, 9, 1, 40, 0⟩]

/-- Store for the C6 witness: user 1 already holds a completed attempt on
the active non-AI quiz 1. -/
def C6store : Store :=
  { quizzes := [⟨1, true, false⟩], questions := [⟨1, 1, 2⟩],
    choices := [⟨1, 1, true⟩], attempts := [⟨1, 1, 2, 2, true⟩],
    answers := [], users := [1], profiles := [⟨1, 2, 1, 100, 1⟩] }

/-- Store for the C7 counterexample: the only quiz is AI-generated and
inactive — exactly how `save_custom_quiz_result` creates AI quizzes
(`is_active=False`). -/
def C7store : Store :=
  { quizzes := [⟨1, false, true⟩], questions := [], choices := [],
    attempts := [], answers := [], users := [1], profiles := [] }

/-- Store for the C7 witness: an active AI-generated quiz. -/
def C7wstore : Store :=
  { quizzes := [⟨1, true, true⟩], questions := [⟨1, 1, 2⟩], choices := [],
    attempts := [], answers := [], users := [1], profiles := [] }

/-- Store for the C8 witness: quiz 1 with a 4-point question whose
choice 7 is correct. -/
def C8store : Store :=
  { quizzes := [⟨1, true, false⟩], questions := [⟨1, 1, 4⟩],
    choices := [⟨7, 1, true⟩], attempts := [], answers := [],
    users := [1], profiles := [] }

/-- C10: `get_points_for_difficulty` is total and returns 1 / 2 / 4 for
strings that lowercase to easy / medium / hard, and the medium default 2
for every other string; mixed-case difficulties map to their standard
points and unknown or misspelled difficulties silently receive 2. -/
theorem C10_points_total_with_medium_default :
    (∀ s : String,
      get_points_for_difficulty s =
        if strLower s = "easy" then 1
        else if strLower s = "medium" then 2
        else if strLower s = "hard" then 4
        else 2) ∧
    get_points_for_difficulty "EaSy" = 1 ∧
    get_points_for_difficulty "MEDIUM" = 2 ∧
    get_points_for_difficulty "HaRd" = 4 ∧
    get_points_for_difficulty "expert" = 2 ∧
    get_points_for_difficulty "" = 2 := by
  refine ⟨?_, by decide, by decide, by decide, by decide, by decide⟩
  intro s
  unfold get_points_for_difficulty difficulty_points
  by_cases h1 : strLower s = "easy"
  · simp [List.lookup, h1]
  · by_cases h2 : strLower s = "medium"
    · simp [List.lookup, h1, h2]
    · by_cases h3 : strLower s = "hard"
      · simp [List.lookup, h1, h2, h3]
      · simp [List.lookup, h1, h2, h3, beq_eq_false_iff_ne.mpr h1,
          beq_eq_false_iff_ne.mpr h2, beq_eq_false_iff_ne.mpr h3]

/-- C9: the scheduler is a two-state machine over the module-global
handle: `start` from the stopped state yields a running scheduler holding
the leaderboard job, `start` while running is a no-op leaving the state
unchanged, and `stop` from any state releases the trigger so that
`status` reports stopped with no jobs. -/
theorem C9_scheduler_two_state_machine :
    get_scheduler_status (start_scheduler none) =
      { status := "running", jobs := ["leaderboard_update_job"] } ∧
    (∀ s : SchedulerHandle, start_scheduler (some s) = some s) ∧
    (∀ st : Option SchedulerHandle,
      get_scheduler_status (stop_scheduler st) = { status := "stopped", jobs := [] }) :=
  ⟨rfl, fun _ => rfl, fun _ => rfl⟩

/-- C1 (code bug): the claimed invariant `0 ≤ score ≤ total_points` fails
on the code.  Submitting the same correct pair twice against a quiz whose
questions are worth 2 points in total completes the attempt with
`score = 4`: the answer loop re-scores every repeated `question_id`. -/
theorem C1_duplicate_pairs_overscore :
    ((submit_quiz C1store 1 1 C1dup).2.toOption.map
        (fun r => (r.score, r.total_points, r.rank))) = some (4, 2, 0) ∧
    (submit_quiz C1store 1 1 C1dup).1.attempts =
      [{ user := 1, quiz := 1, score := 4, total_points := 2, is_completed := true }] ∧
    sumPoints (C1store.quizQuestions 1) = 2 ∧
    ¬ 4 ≤ 2 :=
  ⟨by decide, by decide, by decide, by decide⟩

/-- C7 (counterexample): a submission against an AI-generated quiz does
not always return `SubmissionNotAllowed` — when the AI quiz is inactive
(as `save_custom_quiz_result` always creates them) the active-quiz lookup
fails first and the call returns `QuizNotFound` instead. -/
theorem C7_inactive_ai_gets_not_found :
    submit_quiz C7store 1 1 [] = (C7store, Except.error SubmitError.QuizNotFound) ∧
    C7store.quizzes = [⟨1, false, true⟩] ∧
    SubmitError.QuizNotFound ≠ SubmitError.SubmissionNotAllowed :=
  ⟨by decide, by decide, by decide⟩

/-- C7 (amended): for every submission against an *active* AI-generated
quiz, `submit_quiz` returns `SubmissionNotAllowed` and leaves the store
completely unchanged — no attempt, answer, user or profile row is
created or modified. -/
theorem C7_active_ai_rejected_unchanged (s : Store) (u qid : Nat)
    (answers : List SubmittedAnswer) (qz : Quiz)
    (hq : s.findActiveQuiz qid = some qz)
    (hai : qz.is_ai_generated = true) :
    submit_quiz s u qid answers = (s, Except.error SubmitError.SubmissionNotAllowed) := by
  unfold submit_quiz
  rw [hq]
  simp [hai]

/-- C7 witness: the amended theorem applied to a concrete active AI quiz. -/
theorem C7_active_ai_witness :
    submit_quiz C7wstore 1 1 [⟨1, some 1, ""⟩] =
      (C7wstore, Except.error SubmitError.SubmissionNotAllowed) :=
  C7_active_ai_rejected_unchanged C7wstore 1 1 [⟨1, some 1, ""⟩] ⟨1, true, true⟩
    (by decide) (by decide)

/-- C6: a second `submit_quiz` call for a `(user, quiz)` pair whose
attempt is already completed returns `AlreadyCompleted` and returns the
store exactly as it was: the first attempt's score, `total_points` and
completion state, its `Answer` rows, and every other table are untouched,
and no new rows are created. -/
theorem C6_second_submission_rejected_unchanged (s : Store) (u qid : Nat)
    (answers : List SubmittedAnswer) (qz : Quiz) (a0 : QuizAttempt)
    (hq : s.findActiveQuiz qid = some qz)
    (hai : qz.is_ai_generated = false)
    (hu : u ∈ s.users)
    (ha : s.findAttempt u qid = some a0)
    (hc : a0.is_completed = true) :
    submit_quiz s u qid answers = (s, Except.error SubmitError.AlreadyCompleted) := by
  have hens : ensureUser s u = s := by
    unfold ensureUser
    rw [if_pos hu]
  unfold submit_quiz
  rw [hq]
  simp only [hai, Bool.false_eq_true, if_false, hens, ha, hc, if_true]

/-- C6 witness: the theorem applied to a concrete store holding a
completed attempt. -/
theorem C6_witness :
    submit_quiz C6store 1 1 [⟨1, some 1, ""⟩] =
      (C6store, Except.error SubmitError.AlreadyCompleted) :=
  C6_second_submission_rejected_unchanged C6store 1 1 [⟨1, some 1, ""⟩]
    ⟨1, true, false⟩ ⟨1, 1, 2, 2, true⟩ (by decide) (by decide) (by decide)
    (by decide) (by decide)

/-- C2: `update_stats` computes `average_score_percentage` as the
ratio-of-means — `(mean(score) / mean(total_points)) × 100` rounded to 2
decimal places, `0` for an empty attempt set — and on the Scenario B
store (attempts 5/10 and 3/5) it produces 53.33, not the 55 the
mean-of-per-attempt-percentages formula would give. -/
theorem C2_average_is_ratio_of_means :
    (∀ (s : Store) (p : UserProfile),
      (update_stats s p).average_score_percentage = specAverageScorePercentage s p.user) ∧
    (update_stats C2store C2profile).average_score_percentage = 5333 / 100 ∧
    specMeanOfRatios C2store 1 = 55 ∧
    (5333 / 100 : ℚ) ≠ 55 := by
  have hca : Store.completedNonAI C2store 1 = [⟨1, 1, 5, 10, true⟩, ⟨1, 2, 3, 5, true⟩] := by
    decide
  refine ⟨?_, ?_, ?_, by norm_num⟩
  · intro s p
    unfold update_stats specAverageScorePercentage
    by_cases h : s.completedNonAI p.user = []
    · simp [h]
    · have hl : 0 < (s.completedNonAI p.user).length := List.length_pos.mpr h
      simp only [h, hl, if_pos, if_neg, if_true, if_false]
      congr 1
      ring
  · unfold update_stats C2profile
    norm_num [hca, round2, round_eq]
  · unfold specMeanOfRatios
    norm_num [hca]

/-- C8: one step of the answer-processing loop, by cases.  A pair whose
question does not resolve within the quiz is skipped with no `Answer` row
and no error; a resolved question always belongs to the store and the
quiz; when the choice does not resolve an `Answer` row is still created
with `is_correct = false` and no selected choice and the score is
unchanged; when it resolves, the row records the choice and its
correctness flag and the contribution is the question's stored points if
correct, else `0`. -/
theorem C8_answer_loop_cases (s : Store) (qz : Quiz) (u : Nat)
    (a : SubmittedAnswer) (rest : List SubmittedAnswer) :
    (s.findQuestion qz.id a.question_id = none →
      processAnswers s qz u (a :: rest) = processAnswers s qz u rest) ∧
    (∀ q : Question, s.findQuestion qz.id a.question_id = some q →
      q ∈ s.questions ∧ q.id = a.question_id ∧ q.quiz = qz.id) ∧
    (∀ q : Question, s.findQuestion qz.id a.question_id = some q →
      resolveChoice s q a = none →
      processAnswers s qz u (a :: rest) =
        ((processAnswers s qz u rest).1,
          mkAnswer u qz.id q.id none a.text_answer false ::
            (processAnswers s qz u rest).2)) ∧
    (∀ (q : Question) (c : Choice), s.findQuestion qz.id a.question_id = some q →
      resolveChoice s q a = some c →
      c ∈ s.choices ∧ c.question = q.id ∧
      processAnswers s qz u (a :: rest) =
        ((if c.is_correct then q.points else 0) + (processAnswers s qz u rest).1,
          mkAnswer u qz.id q.id (some c.id) a.text_answer c.is_correct ::
            (processAnswers s qz u rest).2)) := by
  refine ⟨?_, ?_, ?_, ?_⟩
  · intro h
    simp [processAnswers, h]
  · intro q hq
    have hmem := List.mem_of_find?_eq_some hq
    have hpred := List.find?_some hq
    simp only [Bool.and_eq_true, beq_iff_eq] at hpred
    exact ⟨hmem, hpred.1, hpred.2⟩
  · intro q hq hc
    simp [processAnswers, hq, hc, mkAnswer]
  · intro q c hq hc
    rcases hsel : a.selected_choice_id with _ | cid
    · rw [resolveChoice, hsel] at hc
      cases hc
    · have hfc : s.findChoice q.id cid = some c := by
        rw [resolveChoice, hsel] at hc
        exact hc
      have hmem := List.mem_of_find?_eq_some hfc
      have hpred := List.find?_some hfc
      simp only [Bool.and_eq_true, beq_iff_eq] at hpred
      refine ⟨hmem, hpred.2, ?_⟩
      simp [processAnswers, hq, hc, mkAnswer]

/-- C8 witness: the resolved-choice case of the loop at a concrete store. -/
theorem C8_witness :
    processAnswers C8store ⟨1, true, false⟩ 1 [⟨1, some 7, "x"⟩] =
      (4, [mkAnswer 1 1 1 (some 7) "x" true]) := by
  have h := (C8_answer_loop_cases C8store ⟨1, true, false⟩ 1 ⟨1, some 7, "x"⟩ []).2.2.2
      ⟨1, 1, 4⟩ ⟨7, 1, true⟩ (by decide) (by decide)
  exact h.2.2

/-- Helper: the enumeration rank of the head's own user is the offset. -/
theorem rankIn_cons_self (p : UserProfile) (t : List UserProfile) (i : Nat) :
    rankIn (p :: t) p.user i = i := by
  simp [rankIn]

/-- Helper: the enumeration rank skips a head with a different user. -/
theorem rankIn_cons_ne {p : UserProfile} {u : Nat} (h : p.user ≠ u)
    (t : List UserProfile) (i : Nat) : rankIn (p :: t) u i = rankIn t u (i + 1) := by
  simp [rankIn, h]

/-- Helper: `rankIn` is `0` for a user occurring nowhere in the list. -/
theorem rankIn_eq_zero : ∀ (t : List UserProfile) (u : Nat),
    (∀ q ∈ t, q.user ≠ u) → ∀ i, rankIn t u i = 0 := by
  intro t
  induction t with
  | nil => intro u _ i; rfl
  | cons p t ih =>
    intro u h i
    have hp : p.user ≠ u := h p (List.mem_cons_self p t)
    rw [rankIn_cons_ne hp]
    exact ih u (fun q hq => h q (List.mem_cons_of_mem p hq)) (i + 1)

/-- Helper: `rankIn` is at least its offset for a user in the list. -/
theorem le_rankIn : ∀ (t : List UserProfile) (u : Nat) (q : UserProfile),
    q ∈ t → q.user = u → ∀ i, i ≤ rankIn t u i := by
  intro t
  induction t with
  | nil => intro u q hq; cases hq
  | cons p t ih =>
    intro u q hq he i
    by_cases hp : p.user = u
    · simp [rankIn, hp]
    · rw [rankIn_cons_ne hp]
      rcases List.mem_cons.mp hq with rfl | hqt
      · exact absurd he hp
      · exact le_trans (Nat.le_succ i) (ih u q hqt he (i + 1))

/-- Helper: members of a user-nodup list with equal user fields coincide. -/
theorem eq_of_mem_of_user_eq {ps : List UserProfile}
    (hn : (ps.map (fun x => x.user)).Nodup) {p q : UserProfile}
    (hp : p ∈ ps) (hq : q ∈ ps) (he : p.user = q.user) : p = q :=
  List.inj_on_of_nodup_map hn hp hq he

/-- Helper: `find?` by user field returns the member itself when users
are nodup. -/
theorem find?_user_eq_self : ∀ {ps : List UserProfile},
    ((ps.map (fun x => x.user)).Nodup) → ∀ {p : UserProfile}, p ∈ ps →
    ps.find? (fun x => x.user == p.user) = some p := by
  intro ps
  induction ps with
  | nil => intro _ p hp; cases hp
  | cons h t ih =>
    intro hn p hp
    rw [List.map_cons] at hn
    have h1 := List.nodup_cons.mp hn
    rcases List.mem_cons.mp hp with rfl | hpt
    · exact List.find?_cons_of_pos _ (by simp)
    · have hne : h.user ≠ p.user := by
        intro e
        exact h1.1 (e ▸ List.mem_map_of_mem (fun x => x.user) hpt)
      rw [List.find?_cons_of_neg _ (by simp [hne])]
      exact ih h1.2 hpt

/-- Helper: `find?` by user commutes with the rank-overwriting map. -/
theorem find?_user_map_rank (g : UserProfile → Nat) :
    ∀ (ps : List UserProfile) (u : Nat),
      (ps.map (fun x => { x with rank := g x })).find? (fun x => x.user == u) =
        (ps.find? (fun x => x.user == u)).map (fun x => { x with rank := g x }) := by
  intro ps
  induction ps with
  | nil => intro u; rfl
  | cons h t ih =>
    intro u
    by_cases he : h.user = u
    · simp only [List.map_cons]
      rw [List.find?_cons_of_pos _ (by simp [he]), List.find?_cons_of_pos _ (by simp [he])]
      rfl
    · simp only [List.map_cons]
      rw [List.find?_cons_of_neg _ (by simp [he]), List.find?_cons_of_neg _ (by simp [he])]
      exact ih u

/-- Helper: `rankIn` only reads the user field, so it ignores rank
overwrites. -/
theorem rankIn_map_rank (g : UserProfile → Nat) :
    ∀ (l : List UserProfile) (u i : Nat),
      rankIn (l.map (fun p => { p with rank := g p })) u i = rankIn l u i := by
  intro l
  induction l with
  | nil => intro u i; rfl
  | cons p t ih =>
    intro u i
    simp only [List.map_cons, rankIn]
    by_cases h : p.user = u
    · simp [h]
    · simp [h, ih]

/-- Helper: filtering by qualification commutes with rank overwrites. -/
theorem filter_qualifies_map_rank (g : UserProfile → Nat) (ps : List UserProfile) :
    (ps.map (fun p => { p with rank := g p })).filter qualifies =
      (ps.filter qualifies).map (fun p => { p with rank := g p }) := by
  rw [List.filter_map]
  rfl

/-- Helper: the enumeration ranks along a user-nodup list are exactly the
consecutive integers from the offset. -/
theorem map_rankIn : ∀ (s : List UserProfile),
    ((s.map (fun p => p.user)).Nodup) → ∀ i,
    s.map (fun p => rankIn s p.user i) = List.range' i s.length := by
  intro s
  induction s with
  | nil => intro _ i; rfl
  | cons p t ih =>
    intro hn i
    rw [List.map_cons] at hn
    have h1 := List.nodup_cons.mp hn
    have hhead : rankIn (p :: t) p.user i = i := by simp [rankIn]
    have htail : ∀ q ∈ t, rankIn (p :: t) q.user i = rankIn t q.user (i + 1) := by
      intro q hq
      have hne : p.user ≠ q.user := by
        intro e
        exact h1.1 (e ▸ List.mem_map_of_mem (fun x => x.user) hq)
      simp [rankIn, hne]
    calc (p :: t).map (fun x => rankIn (p :: t) x.user i)
        = rankIn (p :: t) p.user i :: t.map (fun x => rankIn (p :: t) x.user i) := by
          simp
      _ = i :: t.map (fun x => rankIn t x.user (i + 1)) := by
          rw [hhead, List.map_congr_left htail]
      _ = i :: List.range' (i + 1) t.length := by rw [ih h1.2 (i + 1)]
      _ = List.range' i (t.length + 1) := (List.range'_succ i t.length 1).symm
      _ = List.range' i (p :: t).length := by simp

/-- Helper: strictly better two-key order excludes the reversed weak
order. -/
theorem not_profileLe_of_profLt {p q : UserProfile} (h : profLt p q) :
    ¬ profileLe q p := by
  intro hle
  unfold profLt at h
  unfold profileLe at hle
  rcases h with h1 | ⟨e1, a1⟩ <;> rcases hle with h2 | ⟨e2, a2⟩
  · omega
  · omega
  · omega
  · exact absurd a2 (not_le.mpr a1)

/-- Helper: strictly better keys give a strictly smaller enumeration rank
in a sorted user-nodup list. -/
theorem rankIn_lt_of_profLt : ∀ (s : List UserProfile),
    List.Sorted profileLe s → ((s.map (fun p => p.user)).Nodup) →
    ∀ {p q : UserProfile}, p ∈ s → q ∈ s → profLt p q →
    ∀ i, rankIn s p.user i < rankIn s q.user i := by
  intro s
  induction s with
  | nil => intro _ _ p q hp; cases hp
  | cons h t ih =>
    intro hs hn p q hp hq hlt i
    rw [List.map_cons] at hn
    have h1 := List.nodup_cons.mp hn
    have hst := hs.of_cons
    have hpq : p ≠ q := by
      intro e
      subst e
      unfold profLt at hlt
      rcases hlt with h2 | ⟨_, h2⟩
      · exact lt_irrefl _ h2
      · exact lt_irrefl _ h2
    rcases List.mem_cons.mp hp with rfl | hpt
    · have hqt : q ∈ t := by
        rcases List.mem_cons.mp hq with e | ht
        · exact absurd e.symm hpq
        · exact ht
      have hne : p.user ≠ q.user := by
        intro e
        exact h1.1 (e ▸ List.mem_map_of_mem (fun x => x.user) hqt)
      rw [rankIn_cons_self, rankIn_cons_ne hne]
      exact lt_of_lt_of_le (Nat.lt_succ_self i) (le_rankIn t q.user q hqt rfl (i + 1))
    · rcases List.mem_cons.mp hq with rfl | hqt
      · exact absurd (List.rel_of_sorted_cons hs p hpt) (not_profileLe_of_profLt hlt)
      · have hnp : h.user ≠ p.user := by
          intro e
          exact h1.1 (e ▸ List.mem_map_of_mem (fun x => x.user) hpt)
        have hnq : h.user ≠ q.user := by
          intro e
          exact h1.1 (e ▸ List.mem_map_of_mem (fun x => x.user) hqt)
        rw [rankIn_cons_ne hnp, rankIn_cons_ne hnq]
        exact ih hst h1.2 hpt hqt hlt (i + 1)

/-- Helper: the earlier element of an embedded pair gets the smaller
enumeration rank in a user-nodup list. -/
theorem rankIn_lt_of_pair_sublist : ∀ (s : List UserProfile),
    ((s.map (fun p => p.user)).Nodup) →
    ∀ {p q : UserProfile}, [p, q].Sublist s →
    ∀ i, rankIn s p.user i < rankIn s q.user i := by
  intro s
  induction s with
  | nil =>
    intro _ p q hsub
    exact absurd (hsub.subset (List.mem_cons_self p [q])) (List.not_mem_nil p)
  | cons h t ih =>
    intro hn p q hsub i
    rw [List.map_cons] at hn
    have h1 := List.nodup_cons.mp hn
    cases hsub with
    | cons _ hsub' =>
      have hpt : p ∈ t := hsub'.subset (by simp)
      have hqt : q ∈ t := hsub'.subset (by simp)
      have hnp : h.user ≠ p.user := by
        intro e
        exact h1.1 (e ▸ List.mem_map_of_mem (fun x => x.user) hpt)
      have hnq : h.user ≠ q.user := by
        intro e
        exact h1.1 (e ▸ List.mem_map_of_mem (fun x => x.user) hqt)
      rw [rankIn_cons_ne hnp, rankIn_cons_ne hnq]
      exact ih h1.2 hsub' (i + 1)
    | cons₂ _ hsub' =>
      have hqt : q ∈ t := hsub'.subset (by simp)
      have hne : h.user ≠ q.user := by
        intro e
        exact h1.1 (e ▸ List.mem_map_of_mem (fun x => x.user) hqt)
      rw [rankIn_cons_self, rankIn_cons_ne hne]
      exact lt_of_lt_of_le (Nat.lt_succ_self i) (le_rankIn t q.user q hqt rfl (i + 1))

/-- Helper: user-nodup carries over to the sorted qualifying list. -/
theorem rankedOrder_user_nodup {ps : List UserProfile}
    (hn : (ps.map (fun p => p.user)).Nodup) :
    ((rankedOrder ps).map (fun p => p.user)).Nodup := by
  have hfil : ((ps.filter qualifies).map (fun p => p.user)).Nodup :=
    List.Nodup.sublist (List.Sublist.map _ (List.filter_sublist ps)) hn
  have hperm : List.Perm (rankedOrder ps) (ps.filter qualifies) :=
    List.perm_insertionSort profileLe (ps.filter qualifies)
  exact ((hperm.map (fun p => p.user)).nodup_iff).mpr hfil

/-- Helper: after `update_all_ranks`, the stored rank of a member user is
its enumeration rank in the sorted qualifying list. -/
theorem storeRank_update (ps : List UserProfile)
    (hn : (ps.map (fun p => p.user)).Nodup) {p : UserProfile} (hp : p ∈ ps) :
    storeRank (update_all_ranks ps) p.user = rankIn (rankedOrder ps) p.user 1 := by
  simp only [storeRank, update_all_ranks]
  rw [find?_user_map_rank (fun x => rankIn (rankedOrder ps) x.user 1) ps p.user,
    find?_user_eq_self hn hp]
  rfl

/-- C3: after every run of `update_all_ranks` on profiles with distinct
users, the ranks over qualifying profiles are exactly a permutation of
`{1, …, N}` (N the number of profiles with `total_quizzes_completed > 0`),
and every profile with `total_quizzes_completed = 0` has rank `0` — all
regardless of the ranks held before the run, since the recomputation
never reads the old rank values. -/
theorem C3_dense_rank_invariant (ps : List UserProfile)
    (hn : (ps.map (fun p => p.user)).Nodup) :
    List.Perm (((update_all_ranks ps).filter qualifies).map (fun p => p.rank))
      (List.range' 1 ((ps.filter qualifies).length)) ∧
    ∀ p ∈ update_all_ranks ps, p.total_quizzes_completed = 0 → p.rank = 0 := by
  have hns := rankedOrder_user_nodup hn
  constructor
  · simp only [update_all_ranks]
    rw [filter_qualifies_map_rank (fun x => rankIn (rankedOrder ps) x.user 1) ps,
      List.map_map]
    have hperm : List.Perm (ps.filter qualifies) (rankedOrder ps) :=
      (List.perm_insertionSort profileLe (ps.filter qualifies)).symm
    have h2 := hperm.map (fun p => rankIn (rankedOrder ps) p.user 1)
    have h3 := map_rankIn (rankedOrder ps) hns 1
    have h4 : (rankedOrder ps).length = (ps.filter qualifies).length :=
      List.length_insertionSort profileLe (ps.filter qualifies)
    refine List.Perm.trans h2 ?_
    rw [h3, h4]
  · intro p' hp' h0
    simp only [update_all_ranks] at hp'
    obtain ⟨p, hp, rfl⟩ := List.mem_map.mp hp'
    have h0' : p.total_quizzes_completed = 0 := h0
    show rankIn (rankedOrder ps) p.user 1 = 0
    refine rankIn_eq_zero (rankedOrder ps) p.user ?_ 1
    intro q hq he
    have hqf : q ∈ ps.filter qualifies := (List.mem_insertionSort profileLe).mp hq
    have hqq := List.mem_filter.mp hqf
    have heq : q = p := eq_of_mem_of_user_eq hn hqq.1 hp he
    have hqual : qualifies p = true := heq ▸ hqq.2
    simp [qualifies, h0'] at hqual

/-- C3 witness: the dense-rank invariant on a concrete store holding
stale ranks, including an orphaned rank on a non-qualifying profile. -/
theorem C3_dense_rank_witness :
    List.Perm (((update_all_ranks C3w).filter qualifies).map (fun p => p.rank))
      (List.range' 1 ((C3w.filter qualifies).length)) ∧
    ∀ p ∈ update_all_ranks C3w, p.total_quizzes_completed = 0 → p.rank = 0 :=
  C3_dense_rank_invariant C3w (by decide)

/-- C4 (counterexample): `update_all_ranks` has no user-id tiebreaker.
On two profiles tied on both ordering keys, the one stored first gets the
better rank: with the higher user id stored first, user 2 receives rank 1
and the lower user id 1 receives rank 2, and swapping the stored order
swaps the outcome — the ordering is not independent of arrangement. -/
theorem C4_no_user_id_tiebreaker :
    (∀ p ∈ C4ps, ∀ q ∈ C4ps,
      p.total_score = q.total_score ∧
      p.average_score_percentage = q.average_score_percentage) ∧
    storeRank (update_all_ranks C4ps) 2 = 1 ∧
    storeRank (update_all_ranks C4ps) 1 = 2 ∧
    (update_all_ranks C4ps).map (fun p => (p.user, p.rank)) = [(2, 1), (1, 2)] ∧
    (update_all_ranks C4psSwapped).map (fun p => (p.user, p.rank)) = [(1, 1), (2, 2)] :=
  ⟨by decide, by decide, by decide, by decide, by decide⟩

/-- C4 (amended): `update_all_ranks` orders qualifying profiles by
`total_score` descending, then `average_score_percentage` descending; a
profile strictly better on those two keys always receives a strictly
better (lower) rank, and profiles tied on both keys are ranked in the
store's row enumeration order — the earlier row gets the better rank;
there is no user-identifier tiebreaker. -/
theorem C4_two_key_order_store_order_ties (ps : List UserProfile)
    (hn : (ps.map (fun p => p.user)).Nodup)
    {p q : UserProfile} (hp : p ∈ ps) (hq : q ∈ ps)
    (hqp : qualifies p = true) (hqq : qualifies q = true) :
    (profLt p q →
      storeRank (update_all_ranks ps) p.user < storeRank (update_all_ranks ps) q.user) ∧
    (profileLe p q → [p, q].Sublist (ps.filter qualifies) →
      storeRank (update_all_ranks ps) p.user < storeRank (update_all_ranks ps) q.user) := by
  have hsp := storeRank_update ps hn hp
  have hsq := storeRank_update ps hn hq
  have hns := rankedOrder_user_nodup hn
  constructor
  · intro hlt
    rw [hsp, hsq]
    exact rankIn_lt_of_profLt (rankedOrder ps)
      (List.sorted_insertionSort profileLe (ps.filter qualifies)) hns
      ((List.mem_insertionSort profileLe).mpr (List.mem_filter.mpr ⟨hp, hqp⟩))
      ((List.mem_insertionSort profileLe).mpr (List.mem_filter.mpr ⟨hq, hqq⟩))
      hlt 1
  · intro hle hsub
    rw [hsp, hsq]
    exact rankIn_lt_of_pair_sublist (rankedOrder ps) hns
      (List.pair_sublist_insertionSort hle hsub) 1

/-- C4 witness: the strictly-better profile of a concrete pair receives
the better rank. -/
theorem C4_order_witness :
    storeRank (update_all_ranks C4w) 2 < storeRank (update_all_ranks C4w) 1 := by
  have h := (@C4_two_key_order_store_order_ties C4w (by decide)
      ⟨2, 9, 1, 40, 0⟩ ⟨1, 5, 1, 50, 0⟩ (by decide) (by decide) (by decide)
      (by decide)).1 (by decide)
  exact h

/-- C5: `update_all_ranks` is idempotent — a second run with no
intervening change maps every profile to exactly the rank the first run
assigned, because the recomputation reads only the user, score and
average fields, none of which the first run changes. -/
theorem C5_update_all_ranks_idempotent (ps : List UserProfile) :
    update_all_ranks (update_all_ranks ps) = update_all_ranks ps := by
  have hcomp : rankedOrder (update_all_ranks ps) =
      (rankedOrder ps).map
        (fun x => { x with rank := rankIn (rankedOrder ps) x.user 1 }) := by
    show rankedOrder
        (ps.map (fun x => { x with rank := rankIn (rankedOrder ps) x.user 1 })) = _
    unfold rankedOrder
    rw [filter_qualifies_map_rank]
    exact (List.map_insertionSort profileLe profileLe
      (fun x => { x with
        rank := rankIn (List.insertionSort profileLe (List.filter qualifies ps)) x.user 1 })
      (List.filter qualifies ps) (fun a _ b _ => Iff.rfl)).symm
  calc update_all_ranks (update_all_ranks ps)
      = (update_all_ranks ps).map
          (fun x => { x with rank := rankIn (rankedOrder (update_all_ranks ps)) x.user 1 }) := rfl
    _ = (update_all_ranks ps).map
          (fun x => { x with rank := rankIn (rankedOrder ps) x.user 1 }) := by
        rw [hcomp]
        simp only [rankIn_map_rank]
    _ = (ps.map (fun x => { x with rank := rankIn (rankedOrder ps) x.user 1 })).map
          (fun x => { x with rank := rankIn (rankedOrder ps) x.user 1 }) := rfl
    _ = ps.map (fun x => { x with rank := rankIn (rankedOrder ps) x.user 1 }) := by
        rw [List.map_map]
        exact List.map_congr_left (fun a _ => rfl)
    _ = update_all_ranks ps := rfl

end CuriousMind
